import Mathlib

/-!
Verification of the particle-life simulation core (particleSimulation.cu).

The CUDA kernels and device functions are shallowly embedded over the reals:
`float3` becomes `Float3` (three real coordinates), `float` becomes `ℝ`, and
the flat attraction-matrix array becomes a function `ℕ → ℝ`.  The per-particle
update of the `updateParticles` kernel is the function `updateAt`; since the
kernel mutates the particle buffer in place, a sequential execution processing
the particle indices in a given order is modelled by `stepOrder`, and `step`
is the forward-order pass over all indices.
-/

namespace ParticleSim

open Filter Topology

/-- Mirror of CUDA `float3`, over the reals. -/
@[ext]
structure Float3 where
  x : ℝ
  y : ℝ
  z : ℝ

instance : Zero Float3 := ⟨⟨0, 0, 0⟩⟩

instance : Add Float3 := ⟨fun u v => ⟨u.x + v.x, u.y + v.y, u.z + v.z⟩⟩

instance : Sub Float3 := ⟨fun u v => ⟨u.x - v.x, u.y - v.y, u.z - v.z⟩⟩

instance : SMul ℝ Float3 := ⟨fun a v => ⟨a * v.x, a * v.y, a * v.z⟩⟩

/-- Mirror of `struct Particle { float3 position; float3 velocity; int color; }`.
Colors are nonnegative indices, so `color : ℕ`. -/
structure Particle where
  position : Float3
  velocity : Float3
  color : ℕ

/-- Device function `length`: `sqrtf(v.x*v.x + v.y*v.y + v.z*v.z)`. -/
noncomputable def length (v : Float3) : ℝ :=
  Real.sqrt (v.x * v.x + v.y * v.y + v.z * v.z)

/-- Device function `normalize`: divides componentwise by the length when the
length is positive, otherwise returns the vector unchanged. -/
noncomputable def normalize (v : Float3) : Float3 :=
  let len := length v
  if 0 < len then ⟨v.x / len, v.y / len, v.z / len⟩ else v

/-- Device function `calculateForce`: the piecewise force law. -/
noncomputable def calculateForce (distance attractionFactor beta : ℝ) : ℝ :=
  if distance < beta then distance / beta - 1
  else if distance < 1 then
    attractionFactor * (1 - (2 * distance - 1 - beta) / (1 - beta))
  else 0

/-- First wrap test of `updateParticles`: `if (p > 1.0f) p = -1.0f;`. -/
noncomputable def wrapHigh (x : ℝ) : ℝ := if 1 < x then -1 else x

/-- Second wrap test of `updateParticles`: `if (p < -1.0f) p = 1.0f;`. -/
noncomputable def wrapLow (x : ℝ) : ℝ := if x < -1 then 1 else x

/-- The two sequential wrap tests applied to one coordinate. -/
noncomputable def wrap1 (x : ℝ) : ℝ := wrapLow (wrapHigh x)

/-- The boundary wrap of `updateParticles`, applied to each axis
independently. -/
noncomputable def wrapPos (p : Float3) : Float3 := ⟨wrap1 p.x, wrap1 p.y, wrap1 p.z⟩

/-- Body of the `j`-loop of `updateParticles` for `j ≠ idx`: accumulate the
pairwise force of `other` on `self` when the distance is below 1. -/
noncomputable def accumForce (numColors : ℕ) (M : ℕ → ℝ) (beta : ℝ)
    (self : Particle) (acc : Float3) (other : Particle) : Float3 :=
  let diff := other.position - self.position
  let dist := length diff
  if dist < 1 then
    acc + calculateForce dist (M (self.color * numColors + other.color)) beta • normalize diff
  else acc

/-- The `j`-loop of `updateParticles`: fold over all particle indices,
skipping `j = idx`, accumulating the force on particle `i`. -/
noncomputable def forceOn (n numColors : ℕ) (M : ℕ → ℝ) (beta : ℝ)
    (arr : Fin n → Particle) (i : Fin n) : Float3 :=
  (List.finRange n).foldl
    (fun acc j => if j ≠ i then accumForce numColors M beta (arr i) acc (arr j) else acc) 0

/-- The per-particle update of `updateParticles`: accumulate force, damp the
velocity by the friction factor, integrate velocity and position, wrap. -/
noncomputable def updateAt (n numColors : ℕ) (M : ℕ → ℝ) (deltaTime beta frictionFactor : ℝ)
    (arr : Fin n → Particle) (i : Fin n) : Particle :=
  let self := arr i
  let force := forceOn n numColors M beta arr i
  let vel1 := frictionFactor • self.velocity
  let vel2 := vel1 + deltaTime • force
  let pos1 := self.position + deltaTime • vel2
  ⟨wrapPos pos1, vel2, self.color⟩

/-- A sequential execution of the `updateParticles` kernel: the particle
buffer is updated in place (as in the source, which has a single buffer),
processing the particle indices in the order given by `ord`. -/
noncomputable def stepOrder (n numColors : ℕ) (M : ℕ → ℝ) (deltaTime beta frictionFactor : ℝ)
    (ord : List (Fin n)) (arr : Fin n → Particle) : Fin n → Particle :=
  ord.foldl (fun a i => Function.update a i (updateAt n numColors M deltaTime beta frictionFactor a i)) arr

/-- One tick: the in-place pass over all particle indices in forward order. -/
noncomputable def step (n numColors : ℕ) (M : ℕ → ℝ) (deltaTime beta frictionFactor : ℝ)
    (arr : Fin n → Particle) : Fin n → Particle :=
  stepOrder n numColors M deltaTime beta frictionFactor (List.finRange n) arr

/-- The render loop: `step` applied once per tick, with the same attraction
matrix and parameters every tick. -/
noncomputable def simulate (n numColors : ℕ) (M : ℕ → ℝ) (deltaTime beta frictionFactor : ℝ)
    (ticks : ℕ) (arr : Fin n → Particle) : Fin n → Particle :=
  (step n numColors M deltaTime beta frictionFactor)^[ticks] arr

/-- Entry written by the attraction-matrix loop in `main`:
`(i == j) ? 1.0f : -1.0f`. -/
noncomputable def matrixEntry (i j : ℕ) : ℝ := if i = j then 1 else -1

/-- Inner loop of the attraction-matrix construction in `main`: row `i` of
the flat array, written at indices `i * numColors + j` for `j < numColors`. -/
noncomputable def buildRow (numColors i : ℕ) (M : ℕ → ℝ) : ℕ → ℝ :=
  (List.range numColors).foldl
    (fun M2 j => Function.update M2 (i * numColors + j) (matrixEntry i j)) M

/-- The attraction-matrix construction in `main`: a double loop writing the
flat array at index `i * numColors + j`. -/
noncomputable def buildMatrix (numColors : ℕ) : ℕ → ℝ :=
  (List.range numColors).foldl (fun M i => buildRow numColors i M) (fun _ => 0)

/-- The `initParticles` kernel for one particle index.  The curand generator
is abstracted as a stream `rng seed idx k` giving the `k`-th `curand_uniform`
draw of the stream `curand_init(seed, idx, 0, ...)`; each position coordinate
is `draw * 2 - 1`, velocity starts at zero, and the color is `idx % numColors`. -/
noncomputable def initParticle (rng : ℕ → ℕ → ℕ → ℝ) (seed numColors idx : ℕ) : Particle :=
  ⟨⟨rng seed idx 0 * 2 - 1, rng seed idx 1 * 2 - 1, rng seed idx 2 * 2 - 1⟩,
   ⟨0, 0, 0⟩, idx % numColors⟩

/-- The spec's piecewise force law, written from the spec's three sentences
(for comparison with `calculateForce`, which is translated from the source). -/
noncomputable def forceSpec (distance attraction beta : ℝ) : ℝ :=
  if distance < beta then distance / beta - 1
  else if distance < 1 then
    attraction * (1 - (2 * distance - 1 - beta) / (1 - beta))
  else 0

/-- The closed position domain `[-1, 1]` on each of the three axes. -/
def inBox (p : Float3) : Prop :=
  (-1 ≤ p.x ∧ p.x ≤ 1) ∧ (-1 ≤ p.y ∧ p.y ≤ 1) ∧ (-1 ≤ p.z ∧ p.z ≤ 1)

/-- Particle 0 of the order-dependence scenario: at the origin, at rest,
color 0. -/
noncomputable def particleA : Particle := ⟨⟨0, 0, 0⟩, ⟨0, 0, 0⟩, 0⟩

/-- Particle 1 of the order-dependence scenario: at `(1/2, 0, 0)`, at rest,
color 0. -/
noncomputable def particleB : Particle := ⟨⟨1 / 2, 0, 0⟩, ⟨0, 0, 0⟩, 0⟩

/-- The two-particle initial state used to exhibit order dependence. -/
noncomputable def pInit : Fin 2 → Particle := fun i => if i = 0 then particleA else particleB

/-- Result of updating particle 0 first (forward order): it reads particle 1
still at its pre-step position, is pushed to `x = 4/3` and wraps to `-1`. -/
noncomputable def particleA1 : Particle := ⟨⟨-1, 0, 0⟩, ⟨4 / 3, 0, 0⟩, 0⟩

/-- Result of updating particle 1 first (reverse order): it reads particle 0
at the origin and moves to `x = -5/6`. -/
noncomputable def particleB1 : Particle := ⟨⟨-(5 / 6), 0, 0⟩, ⟨-(4 / 3), 0, 0⟩, 0⟩

@[simp] theorem zero_x : (0 : Float3).x = 0 := rfl

@[simp] theorem zero_y : (0 : Float3).y = 0 := rfl

@[simp] theorem zero_z : (0 : Float3).z = 0 := rfl

@[simp] theorem add_x (u v : Float3) : (u + v).x = u.x + v.x := rfl

@[simp] theorem add_y (u v : Float3) : (u + v).y = u.y + v.y := rfl

@[simp] theorem add_z (u v : Float3) : (u + v).z = u.z + v.z := rfl

@[simp] theorem sub_x (u v : Float3) : (u - v).x = u.x - v.x := rfl

@[simp] theorem sub_y (u v : Float3) : (u - v).y = u.y - v.y := rfl

@[simp] theorem sub_z (u v : Float3) : (u - v).z = u.z - v.z := rfl

@[simp] theorem smul_x (a : ℝ) (v : Float3) : (a • v).x = a * v.x := rfl

@[simp] theorem smul_y (a : ℝ) (v : Float3) : (a • v).y = a * v.y := rfl

@[simp] theorem smul_z (a : ℝ) (v : Float3) : (a • v).z = a * v.z := rfl

theorem calcForce_near {d beta : ℝ} (a : ℝ) (h : d < beta) :
    calculateForce d a beta = d / beta - 1 := by
  unfold calculateForce
  rw [if_pos h]

theorem calcForce_mid {d beta : ℝ} (a : ℝ) (h1 : ¬ d < beta) (h2 : d < 1) :
    calculateForce d a beta = a * (1 - (2 * d - 1 - beta) / (1 - beta)) := by
  unfold calculateForce
  rw [if_neg h1, if_pos h2]

theorem calcForce_far {d beta : ℝ} (a : ℝ) (h1 : ¬ d < beta) (h2 : ¬ d < 1) :
    calculateForce d a beta = 0 := by
  unfold calculateForce
  rw [if_neg h1, if_neg h2]

theorem wrapHigh_of_gt {x : ℝ} (h : 1 < x) : wrapHigh x = -1 := if_pos h

theorem wrapHigh_of_le {x : ℝ} (h : ¬ 1 < x) : wrapHigh x = x := if_neg h

theorem wrapLow_of_lt {x : ℝ} (h : x < -1) : wrapLow x = 1 := if_pos h

theorem wrapLow_of_ge {x : ℝ} (h : ¬ x < -1) : wrapLow x = x := if_neg h

theorem wrap1_of_gt {x : ℝ} (h : 1 < x) : wrap1 x = -1 := by
  unfold wrap1
  rw [wrapHigh_of_gt h, wrapLow_of_ge (by norm_num)]

theorem wrap1_of_lt {x : ℝ} (h : x < -1) : wrap1 x = 1 := by
  unfold wrap1
  rw [wrapHigh_of_le (by linarith), wrapLow_of_lt h]

theorem wrap1_id {x : ℝ} (h1 : -1 ≤ x) (h2 : x ≤ 1) : wrap1 x = x := by
  unfold wrap1
  rw [wrapHigh_of_le (by linarith), wrapLow_of_ge (by linarith)]

theorem wrap1_mem (x : ℝ) : -1 ≤ wrap1 x ∧ wrap1 x ≤ 1 := by
  unfold wrap1 wrapHigh wrapLow
  split_ifs with h1 h2 h3 <;> constructor <;> linarith

theorem wrapPos_inBox (p : Float3) : inBox (wrapPos p) :=
  ⟨wrap1_mem p.x, wrap1_mem p.y, wrap1_mem p.z⟩

theorem wrapPos_id_of_inBox {p : Float3} (h : inBox p) : wrapPos p = p := by
  obtain ⟨⟨hx1, hx2⟩, ⟨hy1, hy2⟩, ⟨hz1, hz2⟩⟩ := h
  unfold wrapPos
  rw [wrap1_id hx1 hx2, wrap1_id hy1 hy2, wrap1_id hz1 hz2]

theorem length_mk (a b c : ℝ) : length ⟨a, b, c⟩ = Real.sqrt (a * a + b * b + c * c) := rfl

theorem length_axisX (d : ℝ) : length ⟨d, 0, 0⟩ = |d| := by
  rw [length_mk]
  rw [show d * d + 0 * 0 + 0 * 0 = d * d by ring]
  exact Real.sqrt_mul_self_eq_abs d

theorem normalize_axisX_pos {d : ℝ} (h : 0 < d) : normalize ⟨d, 0, 0⟩ = ⟨1, 0, 0⟩ := by
  unfold normalize
  rw [length_axisX, abs_of_pos h, if_pos h]
  have hd : d ≠ 0 := ne_of_gt h
  simp [div_self hd]

theorem normalize_axisX_neg {d : ℝ} (h : d < 0) : normalize ⟨d, 0, 0⟩ = ⟨-1, 0, 0⟩ := by
  unfold normalize
  rw [length_axisX, abs_of_neg h, if_pos (by linarith)]
  have hd : d ≠ 0 := ne_of_lt h
  have : d / -d = -1 := by field_simp
  simp [this]

theorem updateAt_position (n numColors : ℕ) (M : ℕ → ℝ) (deltaTime beta frictionFactor : ℝ)
    (arr : Fin n → Particle) (i : Fin n) :
    (updateAt n numColors M deltaTime beta frictionFactor arr i).position =
      wrapPos ((arr i).position +
        deltaTime • (frictionFactor • (arr i).velocity +
          deltaTime • forceOn n numColors M beta arr i)) := rfl

theorem updateAt_velocity (n numColors : ℕ) (M : ℕ → ℝ) (deltaTime beta frictionFactor : ℝ)
    (arr : Fin n → Particle) (i : Fin n) :
    (updateAt n numColors M deltaTime beta frictionFactor arr i).velocity =
      frictionFactor • (arr i).velocity +
        deltaTime • forceOn n numColors M beta arr i := rfl

theorem updateAt_color (n numColors : ℕ) (M : ℕ → ℝ) (deltaTime beta frictionFactor : ℝ)
    (arr : Fin n → Particle) (i : Fin n) :
    (updateAt n numColors M deltaTime beta frictionFactor arr i).color = (arr i).color := rfl

theorem stepOrder_cons (n numColors : ℕ) (M : ℕ → ℝ) (deltaTime beta frictionFactor : ℝ)
    (a : Fin n) (t : List (Fin n)) (arr : Fin n → Particle) :
    stepOrder n numColors M deltaTime beta frictionFactor (a :: t) arr =
      stepOrder n numColors M deltaTime beta frictionFactor t
        (Function.update arr a (updateAt n numColors M deltaTime beta frictionFactor arr a)) := rfl

theorem stepOrder_apply_of_not_mem (n numColors : ℕ) (M : ℕ → ℝ)
    (deltaTime beta frictionFactor : ℝ) :
    ∀ (ord : List (Fin n)) (arr : Fin n → Particle) (j : Fin n), j ∉ ord →
      stepOrder n numColors M deltaTime beta frictionFactor ord arr j = arr j := by
  intro ord
  induction ord with
  | nil => intro arr j _; rfl
  | cons a t ih =>
    intro arr j h
    rw [List.mem_cons] at h
    push_neg at h
    rw [stepOrder_cons]
    rw [ih _ j h.2]
    exact Function.update_noteq h.1 _ arr

theorem stepOrder_position_inBox (n numColors : ℕ) (M : ℕ → ℝ)
    (deltaTime beta frictionFactor : ℝ) :
    ∀ (ord : List (Fin n)) (arr : Fin n → Particle) (j : Fin n), j ∈ ord →
      inBox ((stepOrder n numColors M deltaTime beta frictionFactor ord arr j).position) := by
  intro ord
  induction ord with
  | nil => intro arr j h; exact absurd h (List.not_mem_nil j)
  | cons a t ih =>
    intro arr j hj
    by_cases hjt : j ∈ t
    · rw [stepOrder_cons]
      exact ih _ j hjt
    · have hja : j = a := by
        rcases List.mem_cons.mp hj with h | h
        · exact h
        · exact absurd h hjt
      subst hja
      rw [stepOrder_cons,
        stepOrder_apply_of_not_mem n numColors M deltaTime beta frictionFactor t _ j hjt,
        Function.update_same, updateAt_position]
      exact wrapPos_inBox _

theorem step_position_inBox (n numColors : ℕ) (M : ℕ → ℝ)
    (deltaTime beta frictionFactor : ℝ) (arr : Fin n → Particle) (i : Fin n) :
    inBox ((step n numColors M deltaTime beta frictionFactor arr i).position) :=
  stepOrder_position_inBox n numColors M deltaTime beta frictionFactor
    (List.finRange n) arr i (List.mem_finRange i)

theorem forceOn_single (numColors : ℕ) (M : ℕ → ℝ) (beta : ℝ)
    (arr : Fin 1 → Particle) (i : Fin 1) : forceOn 1 numColors M beta arr i = 0 := by
  have hi : i = 0 := Subsingleton.elim i 0
  subst hi
  unfold forceOn
  rw [show List.finRange 1 = [0] from rfl]
  simp

theorem step_single (numColors : ℕ) (M : ℕ → ℝ) (deltaTime beta frictionFactor : ℝ)
    (arr : Fin 1 → Particle) (i : Fin 1) :
    step 1 numColors M deltaTime beta frictionFactor arr i =
      updateAt 1 numColors M deltaTime beta frictionFactor arr 0 := by
  have hi : i = 0 := Subsingleton.elim i 0
  subst hi
  unfold step
  rw [show List.finRange 1 = [0] from rfl, stepOrder_cons]
  rw [show stepOrder 1 numColors M deltaTime beta frictionFactor [] = id from rfl]
  simp

theorem tendsto_calcForce_below {beta : ℝ} (a : ℝ) (h0 : 0 < beta) :
    Tendsto (fun d => calculateForce d a beta) (𝓝[<] beta) (𝓝 0) := by
  have heq : ∀ᶠ d in 𝓝[<] beta, d / beta - 1 = calculateForce d a beta := by
    filter_upwards [self_mem_nhdsWithin] with d hd
    rw [calcForce_near a hd]
  have hlim : Tendsto (fun d : ℝ => d / beta - 1) (𝓝[<] beta) (𝓝 (beta / beta - 1)) :=
    (((continuous_id.div_const beta).sub continuous_const).tendsto beta).mono_left
      nhdsWithin_le_nhds
  rw [show beta / beta - 1 = 0 by rw [div_self (ne_of_gt h0)]; ring] at hlim
  exact hlim.congr' heq

theorem tendsto_calcForce_above {beta : ℝ} (a : ℝ) (h0 : 0 < beta) (h1 : beta < 1) :
    Tendsto (fun d => calculateForce d a beta) (𝓝[>] beta) (𝓝 (2 * a)) := by
  have hb : (1 : ℝ) - beta ≠ 0 := sub_ne_zero.mpr (ne_of_lt h1).symm
  have hmem : Set.Ioo beta 1 ∈ 𝓝[>] beta := Ioo_mem_nhdsWithin_Ioi ⟨le_refl beta, h1⟩
  have heq : ∀ᶠ d in 𝓝[>] beta,
      a * (1 - (2 * d - 1 - beta) / (1 - beta)) = calculateForce d a beta := by
    filter_upwards [hmem] with d hd
    rw [calcForce_mid a (not_lt.mpr (le_of_lt hd.1)) hd.2]
  have hcont : Continuous fun d : ℝ => a * (1 - (2 * d - 1 - beta) / (1 - beta)) := by
    apply continuous_const.mul
    apply continuous_const.sub
    exact (((continuous_const.mul continuous_id).sub continuous_const).sub
      continuous_const).div_const _
  have hlim : Tendsto (fun d : ℝ => a * (1 - (2 * d - 1 - beta) / (1 - beta)))
      (𝓝[>] beta) (𝓝 (a * (1 - (2 * beta - 1 - beta) / (1 - beta)))) :=
    (hcont.tendsto beta).mono_left nhdsWithin_le_nhds
  rw [show a * (1 - (2 * beta - 1 - beta) / (1 - beta)) = 2 * a by field_simp; ring] at hlim
  exact hlim.congr' heq

theorem tendsto_calcForce_one {beta : ℝ} (a : ℝ) (h0 : 0 < beta) (h1 : beta < 1) :
    Tendsto (fun d => calculateForce d a beta) (𝓝[<] 1) (𝓝 0) := by
  have hb : (1 : ℝ) - beta ≠ 0 := sub_ne_zero.mpr (ne_of_lt h1).symm
  have hmem : Set.Ioo beta 1 ∈ 𝓝[<] (1 : ℝ) := Ioo_mem_nhdsWithin_Iio ⟨h1, le_refl 1⟩
  have heq : ∀ᶠ d in 𝓝[<] (1 : ℝ),
      a * (1 - (2 * d - 1 - beta) / (1 - beta)) = calculateForce d a beta := by
    filter_upwards [hmem] with d hd
    rw [calcForce_mid a (not_lt.mpr (le_of_lt hd.1)) hd.2]
  have hcont : Continuous fun d : ℝ => a * (1 - (2 * d - 1 - beta) / (1 - beta)) := by
    apply continuous_const.mul
    apply continuous_const.sub
    exact (((continuous_const.mul continuous_id).sub continuous_const).sub
      continuous_const).div_const _
  have hlim : Tendsto (fun d : ℝ => a * (1 - (2 * d - 1 - beta) / (1 - beta)))
      (𝓝[<] (1 : ℝ)) (𝓝 (a * (1 - (2 * 1 - 1 - beta) / (1 - beta)))) :=
    (hcont.tendsto 1).mono_left nhdsWithin_le_nhds
  rw [show a * (1 - (2 * 1 - 1 - beta) / (1 - beta)) = 0 by field_simp; ring] at hlim
  exact hlim.congr' heq

theorem calcForce_far_of_one_le {beta : ℝ} (a : ℝ) (h1 : beta < 1) {d : ℝ} (hd : 1 ≤ d) :
    calculateForce d a beta = 0 :=
  calcForce_far a (not_lt.mpr (le_trans (le_of_lt h1) hd)) (not_lt.mpr hd)

theorem rowkey_inj {C i1 j1 i2 j2 : ℕ} (hj1 : j1 < C) (hj2 : j2 < C)
    (h : i1 * C + j1 = i2 * C + j2) : i1 = i2 ∧ j1 = j2 := by
  rcases lt_trichotomy i1 i2 with hlt | heq | hgt
  · exfalso
    have hle : (i1 + 1) * C ≤ i2 * C := Nat.mul_le_mul_right C (Nat.succ_le_of_lt hlt)
    rw [Nat.add_mul, Nat.one_mul] at hle
    linarith
  · subst heq
    exact ⟨rfl, Nat.add_left_cancel h⟩
  · exfalso
    have hle : (i2 + 1) * C ≤ i1 * C := Nat.mul_le_mul_right C (Nat.succ_le_of_lt hgt)
    rw [Nat.add_mul, Nat.one_mul] at hle
    linarith

theorem foldl_update_apply_of_ne (key : ℕ → ℕ) (val : ℕ → ℝ) :
    ∀ (L : List ℕ) (M : ℕ → ℝ) (k : ℕ), (∀ j ∈ L, key j ≠ k) →
      (L.foldl (fun M2 j => Function.update M2 (key j) (val j)) M) k = M k := by
  intro L
  induction L with
  | nil => intro M k _; rfl
  | cons a t ih =>
    intro M k h
    rw [List.foldl_cons, ih _ k (fun j hj => h j (List.mem_cons_of_mem a hj))]
    exact Function.update_noteq (Ne.symm (h a (List.mem_cons_self a t))) _ M

theorem foldl_update_apply_of_mem (key : ℕ → ℕ) (val : ℕ → ℝ) :
    ∀ (L : List ℕ) (M : ℕ → ℝ) (j : ℕ), L.Nodup → j ∈ L →
      (∀ j2 ∈ L, key j2 = key j → j2 = j) →
      (L.foldl (fun M2 j2 => Function.update M2 (key j2) (val j2)) M) (key j) = val j := by
  intro L
  induction L with
  | nil => intro M j _ h _; exact absurd h (List.not_mem_nil j)
  | cons a t ih =>
    intro M j hnd hj hinj
    rw [List.foldl_cons]
    by_cases hja : j = a
    · subst hja
      have hjt : j ∉ t := (List.nodup_cons.mp hnd).1
      have hne : ∀ j2 ∈ t, key j2 ≠ key j := by
        intro j2 hj2 hkey
        exact hjt ((hinj j2 (List.mem_cons_of_mem j hj2) hkey) ▸ hj2)
      rw [foldl_update_apply_of_ne key val t _ (key j) hne]
      exact Function.update_same (key j) (val j) M
    · have hjt : j ∈ t := by
        rcases List.mem_cons.mp hj with h | h
        · exact absurd h hja
        · exact h
      exact ih _ j (List.nodup_cons.mp hnd).2 hjt
        (fun j2 hj2 => hinj j2 (List.mem_cons_of_mem a hj2))

theorem buildRow_apply_same (C i j : ℕ) (hj : j < C) (M : ℕ → ℝ) :
    buildRow C i M (i * C + j) = matrixEntry i j := by
  exact foldl_update_apply_of_mem (fun j2 => i * C + j2) (fun j2 => matrixEntry i j2)
    (List.range C) M j (List.nodup_range C) (List.mem_range.mpr hj)
    (fun j2 _ hkey => Nat.add_left_cancel hkey)

theorem buildRow_apply_of_ne (C i : ℕ) (M : ℕ → ℝ) (k : ℕ)
    (h : ∀ j < C, i * C + j ≠ k) : buildRow C i M k = M k :=
  foldl_update_apply_of_ne (fun j2 => i * C + j2) (fun j2 => matrixEntry i j2)
    (List.range C) M k (fun j hj => h j (List.mem_range.mp hj))

theorem buildOuter_apply_of_ne (C : ℕ) :
    ∀ (L : List ℕ) (M : ℕ → ℝ) (k : ℕ), (∀ i ∈ L, ∀ j < C, i * C + j ≠ k) →
      (L.foldl (fun M i => buildRow C i M) M) k = M k := by
  intro L
  induction L with
  | nil => intro M k _; rfl
  | cons a t ih =>
    intro M k h
    rw [List.foldl_cons, ih _ k (fun i hi => h i (List.mem_cons_of_mem a hi))]
    exact buildRow_apply_of_ne C a M k (h a (List.mem_cons_self a t))

theorem buildOuter_apply_of_mem (C : ℕ) :
    ∀ (L : List ℕ) (M : ℕ → ℝ) (i j : ℕ), L.Nodup → i ∈ L → j < C →
      (L.foldl (fun M i => buildRow C i M) M) (i * C + j) = matrixEntry i j := by
  intro L
  induction L with
  | nil => intro M i j _ h _; exact absurd h (List.not_mem_nil i)
  | cons a t ih =>
    intro M i j hnd hi hj
    rw [List.foldl_cons]
    by_cases hia : i = a
    · subst hia
      have hit : i ∉ t := (List.nodup_cons.mp hnd).1
      have hne : ∀ i2 ∈ t, ∀ j2 < C, i2 * C + j2 ≠ i * C + j := by
        intro i2 hi2 j2 hj2 hkey
        exact hit ((rowkey_inj hj2 hj hkey).1 ▸ hi2)
      rw [buildOuter_apply_of_ne C t _ _ hne]
      exact buildRow_apply_same C i j hj M
    · have hit : i ∈ t := by
        rcases List.mem_cons.mp hi with h | h
        · exact absurd h hia
        · exact h
      exact ih _ i j (List.nodup_cons.mp hnd).2 hit hj

theorem buildMatrix_apply (C i j : ℕ) (hi : i < C) (hj : j < C) :
    buildMatrix C (i * C + j) = matrixEntry i j :=
  buildOuter_apply_of_mem C (List.range C) (fun _ => 0) i j
    (List.nodup_range C) (List.mem_range.mpr hi) hj

@[simp] theorem zero_mk : (0 : Float3) = ⟨0, 0, 0⟩ := rfl

@[simp] theorem add_mk (a b c d e f : ℝ) :
    (Float3.mk a b c) + ⟨d, e, f⟩ = ⟨a + d, b + e, c + f⟩ := rfl

@[simp] theorem sub_mk (a b c d e f : ℝ) :
    (Float3.mk a b c) - ⟨d, e, f⟩ = ⟨a - d, b - e, c - f⟩ := rfl

@[simp] theorem smul_mk (r a b c : ℝ) :
    r • (Float3.mk a b c) = ⟨r * a, r * b, r * c⟩ := rfl

theorem length_axisX_of_nonneg {d : ℝ} (h : 0 ≤ d) : length ⟨d, 0, 0⟩ = d := by
  rw [length_axisX, abs_of_nonneg h]

theorem length_axisX_of_nonpos {d : ℝ} (h : d ≤ 0) : length ⟨d, 0, 0⟩ = -d := by
  rw [length_axisX, abs_of_nonpos h]

theorem finRange_two : List.finRange 2 = [0, 1] := by decide

theorem forceOn_two_0 (numColors : ℕ) (M : ℕ → ℝ) (beta : ℝ) (arr : Fin 2 → Particle) :
    forceOn 2 numColors M beta arr 0 = accumForce numColors M beta (arr 0) 0 (arr 1) := by
  unfold forceOn
  rw [finRange_two, List.foldl_cons, List.foldl_cons, List.foldl_nil,
    if_pos (by decide), if_neg (by simp)]

theorem forceOn_two_1 (numColors : ℕ) (M : ℕ → ℝ) (beta : ℝ) (arr : Fin 2 → Particle) :
    forceOn 2 numColors M beta arr 1 = accumForce numColors M beta (arr 1) 0 (arr 0) := by
  unfold forceOn
  rw [finRange_two, List.foldl_cons, List.foldl_cons, List.foldl_nil,
    if_neg (by simp), if_pos (by decide)]

theorem pInit_0 : pInit 0 = particleA := rfl

theorem pInit_1 : pInit 1 = particleB := by
  unfold pInit
  rw [if_neg (by decide)]

theorem contrib_AB :
    accumForce 1 (fun _ => 1) (1 / 4) particleA 0 particleB = ⟨4 / 3, 0, 0⟩ := by
  have hlen : length ⟨(1 : ℝ) / 2, 0, 0⟩ = 1 / 2 :=
    length_axisX_of_nonneg (by norm_num)
  have hnorm : normalize ⟨(1 : ℝ) / 2, 0, 0⟩ = ⟨1, 0, 0⟩ :=
    normalize_axisX_pos (by norm_num)
  have hcf : calculateForce (1 / 2) 1 (1 / 4) = 4 / 3 := by
    rw [calcForce_mid 1 (by norm_num) (by norm_num)]
    norm_num
  unfold accumForce particleA particleB
  simp only [sub_mk]
  norm_num
  rw [hlen, hnorm, hcf]
  rw [if_pos (by norm_num)]
  simp only [zero_mk, smul_mk, add_mk]
  norm_num

theorem contrib_BA :
    accumForce 1 (fun _ => 1) (1 / 4) particleB 0 particleA = ⟨-(4 / 3), 0, 0⟩ := by
  have hlen : length ⟨-((1 : ℝ) / 2), 0, 0⟩ = 1 / 2 := by
    rw [length_axisX_of_nonpos (by norm_num)]
    norm_num
  have hnorm : normalize ⟨-((1 : ℝ) / 2), 0, 0⟩ = ⟨-1, 0, 0⟩ :=
    normalize_axisX_neg (by norm_num)
  have hcf : calculateForce (1 / 2) 1 (1 / 4) = 4 / 3 := by
    rw [calcForce_mid 1 (by norm_num) (by norm_num)]
    norm_num
  unfold accumForce particleA particleB
  simp only [sub_mk]
  norm_num
  rw [hlen, hnorm, hcf]
  rw [if_pos (by norm_num)]
  simp only [zero_mk, smul_mk, add_mk]
  norm_num

theorem wrapPos_mk (a b c : ℝ) : wrapPos ⟨a, b, c⟩ = ⟨wrap1 a, wrap1 b, wrap1 c⟩ := rfl

theorem stepOrder_nil (n numColors : ℕ) (M : ℕ → ℝ) (deltaTime beta frictionFactor : ℝ)
    (arr : Fin n → Particle) :
    stepOrder n numColors M deltaTime beta frictionFactor [] arr = arr := rfl

theorem updA : updateAt 2 1 (fun _ => 1) 1 (1 / 4) 1 pInit 0 = particleA1 := by
  simp only [updateAt]
  rw [forceOn_two_0, pInit_0, pInit_1, contrib_AB]
  unfold particleA particleA1
  simp only [smul_mk, add_mk, zero_mk]
  norm_num [wrapPos_mk, wrap1_of_gt, wrap1_id]

theorem updB : updateAt 2 1 (fun _ => 1) 1 (1 / 4) 1 pInit 1 = particleB1 := by
  simp only [updateAt]
  rw [forceOn_two_1, pInit_0, pInit_1, contrib_BA]
  unfold particleB particleB1
  simp only [smul_mk, add_mk, zero_mk]
  norm_num [wrapPos_mk, wrap1_id]

theorem contrib_B_A1 :
    accumForce 1 (fun _ => 1) (1 / 4) particleB 0 particleA1 = 0 := by
  have hlen : length ⟨-(3 / 2 : ℝ), 0, 0⟩ = 3 / 2 := by
    rw [length_axisX_of_nonpos (by norm_num)]
    norm_num
  unfold accumForce particleB particleA1
  simp only [sub_mk]
  norm_num
  intro hlt
  rw [hlen] at hlt
  norm_num at hlt

theorem contrib_A_B1 :
    accumForce 1 (fun _ => 1) (1 / 4) particleA 0 particleB1 = ⟨-(4 / 9), 0, 0⟩ := by
  have hlen : length ⟨-(5 / 6 : ℝ), 0, 0⟩ = 5 / 6 := by
    rw [length_axisX_of_nonpos (by norm_num)]
    norm_num
  have hnorm : normalize ⟨-(5 / 6 : ℝ), 0, 0⟩ = ⟨-1, 0, 0⟩ :=
    normalize_axisX_neg (by norm_num)
  have hcf : calculateForce (5 / 6) 1 (1 / 4) = 4 / 9 := by
    rw [calcForce_mid 1 (by norm_num) (by norm_num)]
    norm_num
  unfold accumForce particleA particleB1
  simp only [sub_mk]
  norm_num
  rw [hlen, hnorm, hcf]
  rw [if_pos (by norm_num)]
  simp only [zero_mk, smul_mk, add_mk]
  norm_num

theorem stepOrder_fwd_0 :
    stepOrder 2 1 (fun _ => 1) 1 (1 / 4) 1 [0, 1] pInit 0 = particleA1 := by
  rw [stepOrder_cons, stepOrder_cons, stepOrder_nil]
  rw [Function.update_noteq (show (0 : Fin 2) ≠ 1 by decide)]
  rw [Function.update_same]
  exact updA

theorem stepOrder_rev_0 :
    stepOrder 2 1 (fun _ => 1) 1 (1 / 4) 1 [1, 0] pInit 0 =
      ⟨⟨-(4 / 9), 0, 0⟩, ⟨-(4 / 9), 0, 0⟩, 0⟩ := by
  rw [stepOrder_cons, stepOrder_cons, stepOrder_nil]
  rw [Function.update_same]
  rw [updB]
  have harr0 : Function.update pInit 1 particleB1 0 = particleA := by
    rw [Function.update_noteq (show (0 : Fin 2) ≠ 1 by decide)]
    exact pInit_0
  have harr1 : Function.update pInit 1 particleB1 1 = particleB1 :=
    Function.update_same 1 particleB1 pInit
  simp only [updateAt]
  rw [forceOn_two_0, harr0, harr1, contrib_A_B1]
  unfold particleA
  simp only [smul_mk, add_mk, zero_mk]
  norm_num [wrapPos_mk, wrap1_id]

@[simp] theorem smul_zero_f3 (r : ℝ) : r • (0 : Float3) = 0 := by
  ext <;> simp

@[simp] theorem add_zero_f3 (u : Float3) : u + 0 = u := by
  ext <;> simp

@[simp] theorem add_mk_zero (u : Float3) : u + (⟨0, 0, 0⟩ : Float3) = u := by
  ext <;> simp

/-- Claim C1: the claim asserts that one tick of `updateParticles` is
independent of the order in which particle indices are processed.  The kernel
updates the single particle buffer in place, so a sequential pass in forward
order and one in reverse order read different neighbor states: on the
concrete two-particle state `pInit` (particles at rest at `(0,0,0)` and
`(1/2,0,0)`, same color, attraction 1, `beta = 1/4`, `dt = 1`, friction 1),
forward processing leaves particle 0 at `x = -1` while reverse processing
leaves it at `x = -4/9`.  This evaluates the code at the failing input and
refutes order independence. -/
theorem step_order_dependent :
    (stepOrder 2 1 (fun _ => 1) 1 (1 / 4) 1 [0, 1] pInit 0).position.x = -1 ∧
    (stepOrder 2 1 (fun _ => 1) 1 (1 / 4) 1 [1, 0] pInit 0).position.x = -(4 / 9) := by
  constructor
  · rw [stepOrder_fwd_0]
    rfl
  · rw [stepOrder_rev_0]

/-- Claim C2: for distance ≥ 0, attraction in `[-1,1]`, beta in `(0,1)`, the
force law equals the spec's piecewise definition, and both branch boundaries
use strict `<`: at `distance = beta` the mid branch applies, and at
`distance = 1` the far branch gives zero. -/
theorem calculateForce_meets_spec (d a beta : ℝ) (hd : 0 ≤ d) (ha1 : -1 ≤ a) (ha2 : a ≤ 1)
    (hb0 : 0 < beta) (hb1 : beta < 1) :
    calculateForce d a beta = forceSpec d a beta ∧
    calculateForce beta a beta = a * (1 - (2 * beta - 1 - beta) / (1 - beta)) ∧
    calculateForce 1 a beta = 0 := by
  refine ⟨rfl, ?_, ?_⟩
  · exact calcForce_mid a (lt_irrefl beta) hb1
  · exact calcForce_far a (not_lt.mpr hb1.le) (lt_irrefl 1)

/-- Witness for C2 at `d = 1/2`, `a = 1`, `beta = 1/10`. -/
theorem calculateForce_meets_spec_witness :
    (0 : ℝ) ≤ 1 / 2 ∧ (-1 : ℝ) ≤ 1 ∧ (1 : ℝ) ≤ 1 ∧ (0 : ℝ) < 1 / 10 ∧ (1 : ℝ) / 10 < 1 ∧
    (calculateForce (1 / 2) 1 (1 / 10) = forceSpec (1 / 2) 1 (1 / 10) ∧
      calculateForce (1 / 10) 1 (1 / 10) =
        1 * (1 - (2 * (1 / 10) - 1 - 1 / 10) / (1 - 1 / 10)) ∧
      calculateForce 1 1 (1 / 10) = 0) :=
  ⟨by norm_num, by norm_num, by norm_num, by norm_num, by norm_num,
    calculateForce_meets_spec (1 / 2) 1 (1 / 10) (by norm_num) (by norm_num) (by norm_num)
      (by norm_num) (by norm_num)⟩

/-- Claim C3 counterexample: the claim says the mid branch tends to
`attraction` as the distance approaches beta from above.  At `attraction = 1`
and `beta = 1/2` the right-hand limit is `2`, not `1`, so the claimed limit
fails. -/
theorem calcForce_mid_limit_not_attraction :
    ¬ Tendsto (fun d => calculateForce d 1 (1 / 2)) (𝓝[>] (1 / 2 : ℝ)) (𝓝 1) := by
  intro h
  have h2 : Tendsto (fun d => calculateForce d 1 (1 / 2)) (𝓝[>] (1 / 2 : ℝ)) (𝓝 (2 * 1)) :=
    tendsto_calcForce_above 1 (by norm_num) (by norm_num)
  have heq := tendsto_nhds_unique h h2
  norm_num at heq

/-- Claim C3 (amended): for attraction in `[-1,1]` and beta in `(0,1)`, the
repulsive branch tends to 0 as distance approaches beta from below; the mid
branch tends to `2 * attraction` (not `attraction`) as distance approaches
beta from above; the force tends to 0 as distance approaches 1 from below;
and the force is 0 for every distance ≥ 1. -/
theorem calcForce_boundary_limits (a beta : ℝ) (ha1 : -1 ≤ a) (ha2 : a ≤ 1)
    (hb0 : 0 < beta) (hb1 : beta < 1) :
    Tendsto (fun d => calculateForce d a beta) (𝓝[<] beta) (𝓝 0) ∧
    Tendsto (fun d => calculateForce d a beta) (𝓝[>] beta) (𝓝 (2 * a)) ∧
    Tendsto (fun d => calculateForce d a beta) (𝓝[<] 1) (𝓝 0) ∧
    ∀ d, 1 ≤ d → calculateForce d a beta = 0 :=
  ⟨tendsto_calcForce_below a hb0, tendsto_calcForce_above a hb0 hb1,
    tendsto_calcForce_one a hb0 hb1, fun d hd => calcForce_far_of_one_le a hb1 hd⟩

/-- Witness for C3 (amended) at `a = 1`, `beta = 1/2`, far input `d = 2`. -/
theorem calcForce_boundary_limits_witness :
    (-1 : ℝ) ≤ 1 ∧ (1 : ℝ) ≤ 1 ∧ (0 : ℝ) < 1 / 2 ∧ (1 : ℝ) / 2 < 1 ∧ (1 : ℝ) ≤ 2 ∧
    (Tendsto (fun d => calculateForce d 1 (1 / 2)) (𝓝[<] (1 / 2 : ℝ)) (𝓝 0) ∧
      Tendsto (fun d => calculateForce d 1 (1 / 2)) (𝓝[>] (1 / 2 : ℝ)) (𝓝 (2 * 1)) ∧
      Tendsto (fun d => calculateForce d 1 (1 / 2)) (𝓝[<] (1 : ℝ)) (𝓝 0) ∧
      calculateForce 2 1 (1 / 2) = 0) := by
  have h := calcForce_boundary_limits 1 (1 / 2) (by norm_num) (by norm_num)
    (by norm_num) (by norm_num)
  exact ⟨by norm_num, by norm_num, by norm_num, by norm_num, by norm_num,
    h.1, h.2.1, h.2.2.1, h.2.2.2 2 (by norm_num)⟩

/-- Claim C4 counterexample: the claim asserts the half-open domain
`[-1.0, 1.0)`, i.e. no output coordinate ever equals or exceeds `1.0`.  A
single particle at the origin with velocity `(-3,0,0)` (`dt = 1`,
friction 1) integrates to `x = -3 < -1` and the wrap sets exactly `x = 1`,
so an output coordinate does equal `1.0`. -/
theorem step_position_reaches_one :
    (step 1 1 (fun _ => 1) 1 (1 / 4) 1 (fun _ => ⟨⟨0, 0, 0⟩, ⟨-3, 0, 0⟩, 0⟩) 0).position.x = 1 := by
  rw [step_single]
  simp only [updateAt]
  rw [forceOn_single]
  simp only [smul_mk, add_mk, zero_mk]
  norm_num [wrapPos_mk, wrap1_of_lt]

/-- Claim C4 (amended): after the wrap step of `updateParticles`, every
position coordinate of every particle produced by one tick lies in the
closed interval `[-1, 1]` (the right endpoint is attainable, so the claimed
half-open interval `[-1, 1)` must be widened to `[-1, 1]`). -/
theorem step_position_in_domain (n numColors : ℕ) (M : ℕ → ℝ)
    (deltaTime beta frictionFactor : ℝ) (arr : Fin n → Particle) (i : Fin n) :
    (-1 ≤ (step n numColors M deltaTime beta frictionFactor arr i).position.x ∧
      (step n numColors M deltaTime beta frictionFactor arr i).position.x ≤ 1) ∧
    (-1 ≤ (step n numColors M deltaTime beta frictionFactor arr i).position.y ∧
      (step n numColors M deltaTime beta frictionFactor arr i).position.y ≤ 1) ∧
    (-1 ≤ (step n numColors M deltaTime beta frictionFactor arr i).position.z ∧
      (step n numColors M deltaTime beta frictionFactor arr i).position.z ≤ 1) :=
  step_position_inBox n numColors M deltaTime beta frictionFactor arr i

/-- Claim C5: the wrap is a single teleport, not modulo arithmetic: a
coordinate `1 + δ` with `δ > 0` wraps to exactly `-1` (not `-1 + δ`), a
coordinate below `-1` wraps to exactly `+1`, and the three axes are wrapped
independently by this same one-coordinate rule. -/
theorem wrap_is_teleport (δ : ℝ) (hδ : 0 < δ) :
    wrap1 (1 + δ) = -1 ∧
    (∀ x : ℝ, x < -1 → wrap1 x = 1) ∧
    (∀ p : Float3, wrapPos p = ⟨wrap1 p.x, wrap1 p.y, wrap1 p.z⟩) :=
  ⟨wrap1_of_gt (by linarith), fun x hx => wrap1_of_lt hx, fun p => rfl⟩

/-- Witness for C5 at `δ = 1/2` and at the coordinate `-2`. -/
theorem wrap_is_teleport_witness :
    (0 : ℝ) < 1 / 2 ∧ wrap1 (1 + 1 / 2) = -1 ∧ wrap1 (-2) = 1 :=
  ⟨by norm_num, (wrap_is_teleport (1 / 2) (by norm_num)).1,
    (wrap_is_teleport (1 / 2) (by norm_num)).2.1 (-2) (by norm_num)⟩

/-- Claim C6: the `j`-loop skips `j = idx`, so with a single particle the
accumulated force is the zero vector for every state; hence one tick
multiplies the velocity by the friction factor and moves the position only
by the damped velocity times `dt` (followed by the wrap, which is the
identity whenever the integrated position stays inside the domain). -/
theorem single_particle_friction_only (numColors : ℕ) (M : ℕ → ℝ)
    (deltaTime beta frictionFactor : ℝ) (p v : Float3) (c : ℕ) :
    forceOn 1 numColors M beta (fun _ => ⟨p, v, c⟩) 0 = 0 ∧
    (step 1 numColors M deltaTime beta frictionFactor (fun _ => ⟨p, v, c⟩) 0).velocity =
      frictionFactor • v ∧
    (step 1 numColors M deltaTime beta frictionFactor (fun _ => ⟨p, v, c⟩) 0).position =
      wrapPos (p + deltaTime • (frictionFactor • v)) ∧
    (inBox (p + deltaTime • (frictionFactor • v)) →
      (step 1 numColors M deltaTime beta frictionFactor (fun _ => ⟨p, v, c⟩) 0).position =
        p + deltaTime • (frictionFactor • v)) := by
  have hf : forceOn 1 numColors M beta (fun _ => ⟨p, v, c⟩) 0 = 0 :=
    forceOn_single numColors M beta _ 0
  have hstep := step_single numColors M deltaTime beta frictionFactor (fun _ => ⟨p, v, c⟩) 0
  have hv : (step 1 numColors M deltaTime beta frictionFactor (fun _ => ⟨p, v, c⟩) 0).velocity =
      frictionFactor • v := by
    rw [hstep]
    simp only [updateAt]
    rw [hf]
    simp
  have hp : (step 1 numColors M deltaTime beta frictionFactor (fun _ => ⟨p, v, c⟩) 0).position =
      wrapPos (p + deltaTime • (frictionFactor • v)) := by
    rw [hstep]
    simp only [updateAt]
    rw [hf]
    simp
  exact ⟨hf, hv, hp, fun hbox => by rw [hp, wrapPos_id_of_inBox hbox]⟩

/-- Witness for C6: a single particle at the origin with velocity `(1,0,0)`,
`dt = 1/2`, friction `1/2`; the damped motion stays inside the domain, so
the new position is exactly the damped velocity times `dt`. -/
theorem single_particle_friction_only_witness :
    inBox ((⟨0, 0, 0⟩ : Float3) + (1 / 2 : ℝ) • ((1 / 2 : ℝ) • (⟨1, 0, 0⟩ : Float3))) ∧
    (step 1 1 (fun _ => 1) (1 / 2) (1 / 4) (1 / 2)
        (fun _ => ⟨⟨0, 0, 0⟩, ⟨1, 0, 0⟩, 0⟩) 0).position =
      (⟨0, 0, 0⟩ : Float3) + (1 / 2 : ℝ) • ((1 / 2 : ℝ) • (⟨1, 0, 0⟩ : Float3)) := by
  have hbox : inBox ((⟨0, 0, 0⟩ : Float3) + (1 / 2 : ℝ) • ((1 / 2 : ℝ) • (⟨1, 0, 0⟩ : Float3))) := by
    simp only [smul_mk, add_mk]
    unfold inBox
    norm_num
  exact ⟨hbox,
    (single_particle_friction_only 1 (fun _ => 1) (1 / 2) (1 / 4) (1 / 2)
      ⟨0, 0, 0⟩ ⟨1, 0, 0⟩ 0).2.2.2 hbox⟩

/-- Claim C7: the reference attraction-matrix construction writes, for every
pair of color indices `i, j` below `numColors`, the flat entry
`i * numColors + j` as `1` when `i = j` and `-1` otherwise; and the matrix
passed to the tick loop is the same unmodified function at every tick. -/
theorem attraction_matrix_policy (numColors i j : ℕ) (hi : i < numColors) (hj : j < numColors) :
    buildMatrix numColors (i * numColors + j) = (if i = j then (1 : ℝ) else -1) ∧
    ∀ (n : ℕ) (deltaTime beta frictionFactor : ℝ) (k : ℕ) (arr : Fin n → Particle),
      simulate n numColors (buildMatrix numColors) deltaTime beta frictionFactor (k + 1) arr =
        step n numColors (buildMatrix numColors) deltaTime beta frictionFactor
          (simulate n numColors (buildMatrix numColors) deltaTime beta frictionFactor k arr) := by
  constructor
  · rw [buildMatrix_apply numColors i j hi hj]
    rfl
  · intro n dt b f k arr
    unfold simulate
    exact Function.iterate_succ_apply' _ k arr

/-- Witness for C7 at `numColors = 5`, entries `(1,3)` and `(2,2)`. -/
theorem attraction_matrix_policy_witness :
    (1 : ℕ) < 5 ∧ (3 : ℕ) < 5 ∧ (2 : ℕ) < 5 ∧
    buildMatrix 5 (1 * 5 + 3) = (if 1 = 3 then (1 : ℝ) else -1) ∧
    buildMatrix 5 (2 * 5 + 2) = (if 2 = 2 then (1 : ℝ) else -1) :=
  ⟨by norm_num, by norm_num, by norm_num,
    (attraction_matrix_policy 5 1 3 (by norm_num) (by norm_num)).1,
    (attraction_matrix_policy 5 2 2 (by norm_num) (by norm_num)).1⟩

/-- Claim C8: `initParticles` gives every particle zero velocity and color
`idx % numColors` (round-robin, so every color below `numColors` is hit),
and each position coordinate is `draw * 2 - 1` for a pseudorandom draw from
the stream keyed by the run seed and the particle index; whenever the draws
lie in `[0, 1]`, every coordinate lies in `[-1, 1]`. -/
theorem initParticles_contract (rng : ℕ → ℕ → ℕ → ℝ) (seed numColors idx : ℕ) :
    (initParticle rng seed numColors idx).velocity = 0 ∧
    (initParticle rng seed numColors idx).color = idx % numColors ∧
    (initParticle rng seed numColors idx).position =
      ⟨rng seed idx 0 * 2 - 1, rng seed idx 1 * 2 - 1, rng seed idx 2 * 2 - 1⟩ ∧
    ((∀ k, 0 ≤ rng seed idx k ∧ rng seed idx k ≤ 1) →
      inBox (initParticle rng seed numColors idx).position) ∧
    (∀ c, c < numColors →
      ∃ i2, i2 < numColors ∧ (initParticle rng seed numColors i2).color = c) := by
  refine ⟨rfl, rfl, rfl, ?_, ?_⟩
  · intro h
    simp only [initParticle, inBox]
    refine ⟨⟨?_, ?_⟩, ⟨?_, ?_⟩, ⟨?_, ?_⟩⟩
    · linarith [(h 0).1]
    · linarith [(h 0).2]
    · linarith [(h 1).1]
    · linarith [(h 1).2]
    · linarith [(h 2).1]
    · linarith [(h 2).2]
  · intro c hc
    exact ⟨c, hc, by simp [initParticle, Nat.mod_eq_of_lt hc]⟩

/-- Witness for C8 with the constant stream `1/2`, seed 7, 5 colors,
index 3. -/
theorem initParticles_contract_witness :
    (∀ k : ℕ, (0 : ℝ) ≤ (fun _ _ _ => (1 : ℝ) / 2) 7 3 k ∧
      (fun _ _ _ => (1 : ℝ) / 2) 7 3 k ≤ 1) ∧
    inBox (initParticle (fun _ _ _ => 1 / 2) 7 5 3).position ∧
    (3 : ℕ) < 5 ∧
    (∃ i2, i2 < 5 ∧ (initParticle (fun _ _ _ => (1 : ℝ) / 2) 7 5 i2).color = 3) :=
  ⟨fun _ => ⟨by norm_num, by norm_num⟩,
    (initParticles_contract (fun _ _ _ => 1 / 2) 7 5 3).2.2.2.1
      (fun _ => ⟨by norm_num, by norm_num⟩),
    by norm_num,
    (initParticles_contract (fun _ _ _ => 1 / 2) 7 5 3).2.2.2.2 3 (by norm_num)⟩

/-- Claim C9: `normalize` of the zero vector is the zero vector (the
`len > 0` guard fails, so no division happens), and for every vector of
positive length `normalize` divides each component by the Euclidean length;
a vector of length zero is returned unchanged, so the force accumulation
never divides by zero. -/
theorem normalize_contract :
    normalize ⟨0, 0, 0⟩ = ⟨0, 0, 0⟩ ∧
    (∀ v : Float3, length v = 0 → normalize v = v) ∧
    (∀ v : Float3, 0 < length v →
      normalize v = ⟨v.x / length v, v.y / length v, v.z / length v⟩) := by
  have hzero : length ⟨0, 0, 0⟩ = 0 := by
    rw [length_mk]
    simp
  refine ⟨?_, ?_, ?_⟩
  · simp only [normalize]
    rw [hzero, if_neg (lt_irrefl 0)]
  · intro v hv
    simp only [normalize]
    rw [hv, if_neg (lt_irrefl 0)]
  · intro v hv
    simp only [normalize]
    rw [if_pos hv]

/-- Witness for C9 at the vector `(3, 4, 0)`, whose length is 5. -/
theorem normalize_contract_witness :
    0 < length ⟨3, 4, 0⟩ ∧
    normalize ⟨3, 4, 0⟩ =
      ⟨(3 : ℝ) / length ⟨3, 4, 0⟩, (4 : ℝ) / length ⟨3, 4, 0⟩, (0 : ℝ) / length ⟨3, 4, 0⟩⟩ := by
  have hlen : length (⟨3, 4, 0⟩ : Float3) = 5 := by
    rw [length_mk, show (3 : ℝ) * 3 + 4 * 4 + 0 * 0 = 5 ^ 2 by norm_num]
    exact Real.sqrt_sq (by norm_num)
  have hpos : 0 < length (⟨3, 4, 0⟩ : Float3) := by
    rw [hlen]
    norm_num
  exact ⟨hpos, normalize_contract.2.2 ⟨3, 4, 0⟩ hpos⟩

/-- Claim C10: after the wrap step of every tick each position coordinate of
every particle lies in the closed interval `[-1, 1]`, and the wrap tests use
strict comparisons, so a coordinate exactly `+1` or `-1` (and any coordinate
already inside the domain) is left unchanged. -/
theorem wrap_closed_interval_admissible :
    (∀ (n numColors : ℕ) (M : ℕ → ℝ) (deltaTime beta frictionFactor : ℝ)
        (arr : Fin n → Particle) (i : Fin n),
      inBox ((step n numColors M deltaTime beta frictionFactor arr i).position)) ∧
    (∀ x : ℝ, -1 ≤ x → x ≤ 1 → wrap1 x = x) ∧
    wrap1 1 = 1 ∧ wrap1 (-1) = -1 :=
  ⟨fun n numColors M deltaTime beta frictionFactor arr i =>
      step_position_inBox n numColors M deltaTime beta frictionFactor arr i,
    fun _ h1 h2 => wrap1_id h1 h2,
    wrap1_id (by norm_num) le_rfl,
    wrap1_id le_rfl (by norm_num)⟩

/-- Witness for C10: the boundary values themselves and a one-particle tick. -/
theorem wrap_closed_interval_admissible_witness :
    inBox ((step 1 1 (fun _ => 1) 1 (1 / 4) 1
      (fun _ => ⟨⟨0, 0, 0⟩, ⟨0, 0, 0⟩, 0⟩) 0).position) ∧
    ((-1 : ℝ) ≤ 1 / 2 ∧ (1 / 2 : ℝ) ≤ 1 ∧ wrap1 (1 / 2) = 1 / 2) ∧
    wrap1 1 = 1 ∧ wrap1 (-1) = -1 :=
  ⟨wrap_closed_interval_admissible.1 1 1 (fun _ => 1) 1 (1 / 4) 1
      (fun _ => ⟨⟨0, 0, 0⟩, ⟨0, 0, 0⟩, 0⟩) 0,
    ⟨by norm_num, by norm_num,
      wrap_closed_interval_admissible.2.1 (1 / 2) (by norm_num) (by norm_num)⟩,
    wrap_closed_interval_admissible.2.2.1,
    wrap_closed_interval_admissible.2.2.2⟩

end ParticleSim
